import Mathlib

/-!
Verification development for the ffmpeg-video-api render-job engine
(`src/index.js`, FinanceTubeAI Render API v3.4.0).

Shallow embedding notes:
* The in-memory `videoJobs` JS `Map` is modelled as an insertion-ordered
  association list `JobMap` (`Map.set` updates in place or appends,
  `Map.delete` removes the binding, iteration follows insertion order).
* Job ids (uuidv4 strings) are modelled as opaque `Nat` tokens; freshness of
  a minted id is a side condition of the `Step.submit` transition.
* Scratch/output paths are derived solely from the id
  (`temp/{id}.jpg`, `temp/{id}.mp3`, `public/videos/{id}.mp4`), modelled by
  the inductive `JPath` with constructors `img`, `aud`, `out`.
* The filesystem is an association list from paths to byte sizes;
  `fs.writeFileSync` truncates/overwrites, `fs.unlinkSync` removes,
  `fs.existsSync`/`fs.statSync` read.
* `Buffer.from(str, "base64")` follows the forgiving Node semantics:
  characters outside the base64 alphabet are skipped, a trailing group is
  decoded partially, and decoding a string never throws.
* `Math.round(x)` on the nonnegative values used here is `⌊x + 1/2⌋`; the
  divisions by 1024 are exact in doubles, so `Math.round(n / 1024)` is
  `(n + 512) / 1024` in Nat arithmetic.  `Math.round(d / 1000)` is modelled
  the same way; its double rounding is immaterial to every claim.
* The external encoder is an environment action: an `ExecOutcome` (the
  promise resolving with stderr, or rejecting with an error message for a
  non-zero exit / timeout) together with the output file it left behind
  (`written : Option Nat`, the size of `public/videos/{id}.mp4`, or `none`).
-/

/-- Job lifecycle status stored in the registry record. -/
inductive JStatus
  | processing
  | complete
  | error
  deriving DecidableEq, Repr

/-- One registry record.  The three shapes written by the code
(lines 172-178, 228-237, 242-246 of `src/index.js`) populate different
subsets of the fields; absent JS object fields are `none`.
`url` is modelled by the id it embeds (the string `/videos/{id}.mp4`). -/
structure Job where
  status : JStatus
  createdAt : Nat
  imageSizeKB : Option Nat := none
  audioSizeKB : Option Nat := none
  caption : Option String := none
  videoId : Option Nat := none
  size : Option Nat := none
  sizeKB : Option Nat := none
  url : Option Nat := none
  processingTime : Option Nat := none
  errorMsg : Option String := none
  deriving DecidableEq, Repr

/-- `caption: caption || null` (line 177): a missing or empty caption is stored as null. -/
def jsCaptionOrNull (caption : Option String) : Option String :=
  match caption with
  | none => none
  | some c => if c.data.isEmpty then none else some c

/-- `caption || "FinanceTubeAI"` (line 209). -/
def rawTextOf (caption : Option String) : String :=
  match caption with
  | none => "FinanceTubeAI"
  | some c => if c.data.isEmpty then "FinanceTubeAI" else c

/-- JS `Math.round (n / 1024)` for a Nat `n` (exact in doubles, half rounds up). -/
def roundDiv (n d : Nat) : Nat := (n + d / 2) / d

/-- Registry record created by `POST /api/merge` (lines 172-178). -/
def processingJob (now imgKB audKB : Nat) (caption : Option String) : Job :=
  { status := .processing
    createdAt := now
    imageSizeKB := some imgKB
    audioSizeKB := some audKB
    caption := jsCaptionOrNull caption }

/-- Registry record written on successful validation (lines 228-237). -/
def completeJob (id sz ptime : Nat) (rawText : String) (createdAt : Nat) : Job :=
  { status := .complete
    createdAt := createdAt
    videoId := some id
    size := some sz
    sizeKB := some (roundDiv sz 1024)
    url := some id
    processingTime := some ptime
    caption := some rawText }

/-- Registry record written in the catch block (lines 242-246). -/
def errorJob (msg : String) (createdAt : Nat) : Job :=
  { status := .error
    createdAt := createdAt
    errorMsg := some msg }

/-- The `videoJobs` map: insertion-ordered association list keyed by job id. -/
abbrev JobMap := List (Nat × Job)

/-- `videoJobs.get(id)`. -/
def mapGet : JobMap → Nat → Option Job
  | [], _ => none
  | p :: ps, k => if p.1 = k then some p.2 else mapGet ps k

/-- `videoJobs.set(id, job)`: update in place, or append a fresh binding. -/
def mapSet : JobMap → Nat → Job → JobMap
  | [], k, v => [(k, v)]
  | p :: ps, k, v => if p.1 = k then (k, v) :: ps else p :: mapSet ps k v

/-- `videoJobs.delete(id)`: remove the binding, if present. -/
def mapDelete : JobMap → Nat → JobMap
  | [], _ => []
  | p :: ps, k => if p.1 = k then ps else p :: mapDelete ps k

/-- Registry keys are pairwise distinct (a JS `Map` has unique keys). -/
def keysNodup (m : JobMap) : Prop := (m.map Prod.fst).Nodup

/-- Per-job scratch and output paths, derived solely from the id:
`img id` is `temp/{id}.jpg` (line 150), `aud id` is `temp/{id}.mp3`
(line 151), `out id` is `public/videos/{id}.mp4` (line 152). -/
inductive JPath
  | img (id : Nat)
  | aud (id : Nat)
  | out (id : Nat)
  deriving DecidableEq, Repr

/-- Filesystem contents: existing files with their byte sizes. -/
abbrev FsState := List (JPath × Nat)

/-- `fs.writeFileSync`: truncate/overwrite the path with the given size. -/
def fsWrite (fs : FsState) (p : JPath) (sz : Nat) : FsState :=
  (p, sz) :: fs.filter (fun q => !(q.1 == p))

/-- `fs.unlinkSync` guarded by `fs.existsSync`: remove the path if present. -/
def fsRemove (fs : FsState) (p : JPath) : FsState :=
  fs.filter (fun q => !(q.1 == p))

/-- `fs.existsSync` and `fs.statSync(..).size` combined. -/
def fsStat (fs : FsState) (p : JPath) : Option Nat :=
  (fs.find? (fun q => q.1 == p)).map Prod.snd

/-- `fs.existsSync`. -/
def fsExists (fs : FsState) (p : JPath) : Bool :=
  (fsStat fs p).isSome

/-- The whole mutable server state: the `videoJobs` registry and the scratch
and output filesystem. -/
structure SysState where
  jobs : JobMap
  fs : FsState
  deriving DecidableEq

/-- `MAX_JOB_AGE` (line 38): one hour in milliseconds. -/
def MAX_JOB_AGE : Nat := 3600000

/-- `MAX_ACTIVE_JOBS` (line 39). -/
def MAX_ACTIVE_JOBS : Nat := 100

/-- Value of one base64 alphabet character, per RFC 4648; everything else
(including padding) yields `none` and is skipped by the forgiving decoder. -/
def base64Val (c : Char) : Option Nat :=
  if 'A' ≤ c ∧ c ≤ 'Z' then some (c.toNat - 65)
  else if 'a' ≤ c ∧ c ≤ 'z' then some (c.toNat - 97 + 26)
  else if '0' ≤ c ∧ c ≤ '9' then some (c.toNat - 48 + 52)
  else if c = '+' then some 62
  else if c = '/' then some 63
  else none

/-- Decode a stream of 6-bit values in groups of four into bytes; a trailing
group of two or three values contributes one or two bytes, a single trailing
value contributes nothing (Node `Buffer.from(_, "base64")` behaviour). -/
def decodeB64Groups : List Nat → List Nat
  | v1 :: v2 :: v3 :: v4 :: rest =>
      (v1 * 4 + v2 / 16) :: ((v2 % 16) * 16 + v3 / 4) :: ((v3 % 4) * 64 + v4)
        :: decodeB64Groups rest
  | [v1, v2] => [v1 * 4 + v2 / 16]
  | [v1, v2, v3] => [v1 * 4 + v2 / 16, (v2 % 16) * 16 + v3 / 4]
  | _ => []

/-- Node `Buffer.from(s, "base64")` on a string: skip characters outside the
base64 alphabet, decode the rest.  Total: for string input it never throws. -/
def nodeBase64Decode (s : String) : List Nat :=
  decodeB64Groups (s.data.filterMap base64Val)

/-- `Buffer.from(s, "base64")` as used inside the handler try/catch
(lines 154-160).  Per Node semantics the string overload never throws, so
this is always `Except.ok`; the `catch` arm of the handler is kept in the
embedding to mirror the source. -/
def bufferFromBase64 (s : String) : Except String (List Nat) :=
  .ok (nodeBase64Decode s)

/-- JS falsiness of an optional string request field (`!image`):
missing or empty. -/
def jsFalsy : Option String → Bool
  | none => true
  | some s => s.data.isEmpty

/-- Responses of `POST /api/merge` (lines 139-195).  `accepted` carries the
`video_id` and the id embedded in the `status_url`; `missing` carries the
`received` diagnostic booleans. -/
inductive MergeResponse
  | missing (hasImage hasAudio : Bool)
  | invalidBase64
  | fileTooSmall
  | accepted (videoId : Nat) (statusUrlId : Nat)
  deriving DecidableEq, Repr

/-- The `POST /api/merge` handler (lines 139-195): validate presence, decode
both payloads, enforce the 1000-byte floor, write the scratch inputs, create
the `processing` registry entry, and only then produce the response.  The
spawned `processVideo` task is modelled by the separate `Step.finish`
transition.  `id` is the freshly minted uuid, `now` is `Date.now()`. -/
def mergeHandler (s : SysState) (id now : Nat) (image audio caption : Option String) :
    MergeResponse × SysState :=
  if jsFalsy image || jsFalsy audio then
    (.missing (!jsFalsy image) (!jsFalsy audio), s)
  else
    match bufferFromBase64 ((image.getD "")), bufferFromBase64 ((audio.getD "")) with
    | .error _, _ => (.invalidBase64, s)
    | .ok _, .error _ => (.invalidBase64, s)
    | .ok imgBuffer, .ok audBuffer =>
      if imgBuffer.length < 1000 || audBuffer.length < 1000 then
        (.fileTooSmall, s)
      else
        (.accepted id id,
          { jobs := mapSet s.jobs id
              (processingJob now (roundDiv imgBuffer.length 1024)
                (roundDiv audBuffer.length 1024) caption)
            fs := fsWrite (fsWrite s.fs (.img id) imgBuffer.length)
                    (.aud id) audBuffer.length })

/-- Responses of `GET /api/status/:id` (lines 197-201): 404, or the record
spread into the body together with the id. -/
inductive StatusResponse
  | notFound
  | ok (id : Nat) (job : Job)
  deriving DecidableEq, Repr

/-- The `GET /api/status/:id` handler (lines 197-201). -/
def statusHandler (s : SysState) (id : Nat) : StatusResponse :=
  match mapGet s.jobs id with
  | none => .notFound
  | some j => .ok id j

/-- Outcome of `await execPromise(cmd, { timeout: 420000 })` (line 218):
the promise resolves with captured stderr, or rejects (non-zero exit,
timeout, spawn failure) with the error message `e.message`. -/
inductive ExecOutcome
  | success (stderr : String)
  | failure (errMsg : String)
  deriving DecidableEq, Repr

/-- Line 219: only the console diagnostic of stderr is truncated,
`stderr.slice(0, 300)`. -/
def stderrLogSnippet (stderr : String) : String :=
  String.mk (stderr.data.take 300)

/-- `videoJobs.get(id)?.createdAt || Date.now()` (line 245): JS falsiness
sends both a missing record and a zero timestamp to `Date.now()`. -/
def jsOrNow (c : Option Nat) (now : Nat) : Nat :=
  match c with
  | none => now
  | some c => if c = 0 then now else c

/-- The catch block of `processVideo` (lines 240-247): write the `error`
record (the message stored verbatim), then delete the output artifact if it
exists. -/
def errorUpdate (s : SysState) (id : Nat) (msg : String) (now : Nat) : SysState :=
  { jobs := mapSet s.jobs id
      (errorJob msg (jsOrNow ((mapGet s.jobs id).map Job.createdAt) now))
    fs := fsRemove s.fs (.out id) }

/-- The external encoder's effect on the filesystem: the output file it
left behind at `public/videos/{id}.mp4`, if any (an environment input, not
repository code; a failed or timed-out encode may still leave a partial
file, which is why the catch block deletes it). -/
def encoderFs (s : SysState) (id : Nat) (written : Option Nat) : FsState :=
  match written with
  | none => s.fs
  | some sz => fsWrite s.fs (.out id) sz

/-- The background render task `processVideo` (lines 204-253).
`started` is the `Date.now()` captured at entry and `now` the one at the
terminal transition.  First the encoder's effect on the filesystem is
applied (`written` is the output file it left behind, if any); then the try
block checks the exec outcome, the artifact's existence, the 200000-byte
floor, and reads `videoJobs.get(id).createdAt` (which throws a TypeError if
the record was evicted meanwhile); any failure lands in the catch block;
the finally block removes both scratch inputs. -/
def processVideo (s : SysState) (id started now : Nat) (caption : Option String)
    (encode : ExecOutcome) (written : Option Nat) : SysState :=
  let fs1 : FsState := encoderFs s id written
  let afterTry : SysState :=
    match encode with
    | .failure msg => errorUpdate { s with fs := fs1 } id msg now
    | .success _ =>
      match fsStat fs1 (.out id) with
      | none => errorUpdate { s with fs := fs1 } id "Output not created" now
      | some sz =>
        if sz < 200000 then
          errorUpdate { s with fs := fs1 } id
            ("File too small: " ++ toString (roundDiv sz 1024) ++ "KB") now
        else
          match mapGet s.jobs id with
          | none =>
            errorUpdate { s with fs := fs1 } id
              "TypeError: cannot read createdAt of undefined" now
          | some j =>
            { jobs := mapSet s.jobs id
                (completeJob id sz (roundDiv (now - started) 1000)
                  (rawTextOf caption) j.createdAt)
              fs := fs1 }
  { afterTry with fs := fsRemove (fsRemove afterTry.fs (.img id)) (.aud id) }

/-- Comparator of the capacity-eviction sort (line 66),
`(a, b) => a[1].createdAt - b[1].createdAt`: ascending `createdAt`. -/
def ageLE (p q : Nat × Job) : Prop := p.2.createdAt ≤ q.2.createdAt

instance : DecidableRel ageLE := fun p q => Nat.decLe p.2.createdAt q.2.createdAt

instance : IsTotal (Nat × Job) ageLE := ⟨fun p q => Nat.le_total p.2.createdAt q.2.createdAt⟩

instance : IsTrans (Nat × Job) ageLE := ⟨fun _ _ _ h h2 => Nat.le_trans h h2⟩

/-- `Array.from(videoJobs.entries()).sort((a, b) => a[1].createdAt - b[1].createdAt)`
(lines 65-66).  JS `Array.prototype.sort` is stable; `List.insertionSort`
with a `≤` comparator is the same stable ascending sort. -/
def sortByAge (m : JobMap) : JobMap := List.insertionSort ageLE m

/-- The age sweep half of `cleanupOldJobs` (lines 46-59) restricted to the
registry: keep the entries whose age is within `MAX_JOB_AGE`. -/
def sweepJobs (now : Nat) (m : JobMap) : JobMap :=
  m.filter (fun p => !decide (MAX_JOB_AGE < now - p.2.createdAt))

/-- The entries the age sweep evicts (age strictly above `MAX_JOB_AGE`). -/
def expiredJobs (now : Nat) (m : JobMap) : JobMap :=
  m.filter (fun p => decide (MAX_JOB_AGE < now - p.2.createdAt))

/-- The capacity-eviction half of `cleanupOldJobs` (lines 63-70): when the
registry holds more than `MAX_ACTIVE_JOBS` entries, delete the excess oldest
(by `createdAt`, stable) from the registry.  No file is deleted here. -/
def evictJobs (m : JobMap) : JobMap :=
  if MAX_ACTIVE_JOBS < m.length then
    (((sortByAge m).take (m.length - MAX_ACTIVE_JOBS))).foldl
      (fun mm p => mapDelete mm p.1) m
  else m

/-- The Janitor tick `cleanupOldJobs` (lines 42-71): sweep entries older
than `MAX_JOB_AGE`, deleting each such registry entry and its output file;
then, if the registry still exceeds `MAX_ACTIVE_JOBS`, delete the oldest
excess entries (registry only). -/
def cleanupOldJobs (now : Nat) (s : SysState) : SysState :=
  { jobs := evictJobs (sweepJobs now s.jobs)
    fs := (expiredJobs now s.jobs).foldl (fun fs p => fsRemove fs (.out p.1)) s.fs }

/-- Image-extension choice in `src/index.js` line 150: the scratch image
path is always `temp/{id}.jpg`, a fixed extension independent of the
payload bytes. -/
def indexJsImageExt (_imgBuffer : List Nat) : String := ".jpg"

/-- Image-extension choice in `src/unnamed/part_006` lines 37-39:
`let ext = ".jpg"; if (imgBuf[0] === 0x89 && imgBuf[1] === 0x50) ext = ".png"`.
Out-of-bounds reads give `undefined`, which fails the comparison. -/
def part006ImageExt (imgBuf : List Nat) : String :=
  if imgBuf.get? 0 = some 0x89 ∧ imgBuf.get? 1 = some 0x50 then ".png" else ".jpg"

/-- A system trace point: the server state together with the set of spawned
but unfinished `processVideo` tasks (`pending`) and every id ever minted
(`used`; uuidv4 freshness means a new id is never reused). -/
structure World where
  st : SysState
  pending : List Nat
  used : List Nat
  deriving DecidableEq

/-- The server right after startup: empty registry, empty scratch space. -/
def w0 : World := ⟨⟨[], []⟩, [], []⟩

/-- Effect of one `POST /api/merge` request: run the handler; on an accepted
submission the spawned `processVideo(id, ...)` becomes a pending task. -/
def submitStep (w : World) (id now : Nat) (image audio caption : Option String) : World :=
  let r := mergeHandler w.st id now image audio caption
  { st := r.2
    pending :=
      match r.1 with
      | .accepted _ _ => id :: w.pending
      | _ => w.pending
    used := id :: w.used }

/-- Effect of a pending `processVideo` task running to its terminal state. -/
def finishStep (w : World) (id started now : Nat) (caption : Option String)
    (encode : ExecOutcome) (written : Option Nat) : World :=
  { st := processVideo w.st id started now caption encode written
    pending := w.pending.erase id
    used := w.used }

/-- Effect of one Janitor tick (`setInterval(cleanupOldJobs, 900000)`). -/
def tickStep (w : World) (now : Nat) : World :=
  { w with st := cleanupOldJobs now w.st }

/-- One interleaving step of the system: an HTTP submission with a freshly
minted uuid, a background render task finishing, or a Janitor tick. -/
inductive Step : World → World → Prop
  | submit (w : World) (id now : Nat) (image audio caption : Option String) :
      id ∉ w.used → Step w (submitStep w id now image audio caption)
  | finish (w : World) (id started now : Nat) (caption : Option String)
      (encode : ExecOutcome) (written : Option Nat) :
      id ∈ w.pending → Step w (finishStep w id started now caption encode written)
  | tick (w : World) (now : Nat) : Step w (tickStep w now)

/-- States reachable from server startup. -/
inductive Reachable : World → Prop
  | init : Reachable w0
  | next {w w' : World} : Reachable w → Step w w' → Reachable w'

/-- A well-formed valid payload used to drive concrete traces: 1336 base64
characters decoding to 1002 zero bytes (above the 1000-byte floor). -/
def aStr : String := String.mk (List.replicate 1336 'A')

/-- The registry record every `aStr`-submission at time 0 creates. -/
def pJob : Job := processingJob 0 1 1 none

/-- The world after `n` accepted submissions (ids `0, …, n-1`, all at time
0, payloads `aStr`), none of whose render tasks has run yet. -/
def wAfter : Nat → World
  | 0 => w0
  | n + 1 => submitStep (wAfter n) n 0 (some aStr) (some aStr) none

lemma mapGet_set_self (m : JobMap) (k : Nat) (v : Job) :
    mapGet (mapSet m k v) k = some v := by
  induction m with
  | nil => simp [mapSet, mapGet]
  | cons p ps ih =>
    by_cases h : p.1 = k
    · simp [mapSet, h, mapGet]
    · simp [mapSet, h, mapGet, ih]

lemma mapGet_set_ne (m : JobMap) (k k' : Nat) (v : Job) (h : k' ≠ k) :
    mapGet (mapSet m k v) k' = mapGet m k' := by
  induction m with
  | nil => simp [mapSet, mapGet, Ne.symm h]
  | cons p ps ih =>
    by_cases hp : p.1 = k
    · have hpk' : ¬ p.1 = k' := by rw [hp]; exact Ne.symm h
      simp [mapSet, hp, mapGet, Ne.symm h, hpk']
    · by_cases hp' : p.1 = k'
      · simp [mapSet, hp, mapGet, hp', h]
      · simp [mapSet, hp, mapGet, hp', ih]

lemma mapGet_eq_some_mem {m : JobMap} {k : Nat} {v : Job}
    (h : mapGet m k = some v) : (k, v) ∈ m := by
  induction m with
  | nil => simp [mapGet] at h
  | cons p ps ih =>
    by_cases hp : p.1 = k
    · simp [mapGet, hp] at h
      have hpe : p = (k, v) := by cases p; simp_all
      rw [← hpe]
      exact .head _
    · simp [mapGet, hp] at h
      exact .tail _ (ih h)

lemma mem_mapGet {m : JobMap} {k : Nat} {v : Job}
    (hnd : keysNodup m) (h : (k, v) ∈ m) : mapGet m k = some v := by
  induction m with
  | nil => simp at h
  | cons p ps ih =>
    rcases List.mem_cons.1 h with h | h
    · simp [← h, mapGet]
    · have hk : k ∈ ps.map Prod.fst := List.mem_map.2 ⟨(k, v), h, rfl⟩
      have hp : p.1 ≠ k := by
        intro he
        have := (List.nodup_cons.1 hnd).1
        exact this (he ▸ hk)
      have : keysNodup ps := (List.nodup_cons.1 hnd).2
      simp [mapGet, hp, ih this h]

lemma mapGet_eq_none_iff {m : JobMap} {k : Nat} :
    mapGet m k = none ↔ ∀ p ∈ m, p.1 ≠ k := by
  induction m with
  | nil => simp [mapGet]
  | cons p ps ih =>
    by_cases hp : p.1 = k
    · simp [mapGet, hp]
    · simp [mapGet, hp, ih]

lemma mem_mapSet {m : JobMap} {k : Nat} {v : Job} {p : Nat × Job}
    (h : p ∈ mapSet m k v) : p = (k, v) ∨ p ∈ m := by
  induction m with
  | nil => simp [mapSet] at h; simp [h]
  | cons q qs ih =>
    by_cases hq : q.1 = k
    · simp [mapSet, hq] at h
      rcases h with h | h
      · left; simp [h]
      · right; exact .tail _ h
    · simp [mapSet, hq] at h
      rcases h with h | h
      · right; simp [h]
      · rcases ih h with h | h
        · left; exact h
        · right; exact .tail _ h

lemma keys_mapSet (m : JobMap) (k : Nat) (v : Job) :
    (mapSet m k v).map Prod.fst = m.map Prod.fst ∨
      (mapSet m k v).map Prod.fst = m.map Prod.fst ++ [k] := by
  induction m with
  | nil => right; simp [mapSet]
  | cons q qs ih =>
    by_cases hq : q.1 = k
    · left; simp [mapSet, hq]
    · rcases ih with h | h
      · left; simp [mapSet, hq, h]
      · right; simp [mapSet, hq, h]

lemma keysNodup_mapSet {m : JobMap} (k : Nat) (v : Job) (hnd : keysNodup m)
    (hfresh : ∀ p ∈ m, p.1 ≠ k) : keysNodup (mapSet m k v) := by
  rcases keys_mapSet m k v with h | h
  · unfold keysNodup
    rw [h]
    exact hnd
  · unfold keysNodup
    rw [h]
    refine List.Nodup.append hnd (List.nodup_singleton k) ?_
    intro a ha hb
    rcases List.mem_map.1 ha with ⟨p, hp, rfl⟩
    simp at hb
    exact hfresh p hp hb

lemma mapSet_fresh_append {m : JobMap} {k : Nat} (v : Job)
    (hfresh : ∀ p ∈ m, p.1 ≠ k) : mapSet m k v = m ++ [(k, v)] := by
  induction m with
  | nil => simp [mapSet]
  | cons q qs ih =>
    have hq : q.1 ≠ k := hfresh q (.head _)
    simp only [mapSet, hq, if_false]
    rw [ih (fun p hp => hfresh p (.tail _ hp))]
    simp

lemma mapDelete_sublist (m : JobMap) (k : Nat) : (mapDelete m k).Sublist m := by
  induction m with
  | nil => simp [mapDelete]
  | cons q qs ih =>
    by_cases hq : q.1 = k
    · rw [mapDelete, if_pos hq]
      exact List.sublist_cons_self q qs
    · rw [mapDelete, if_neg hq]
      exact List.Sublist.cons₂ q ih

lemma foldl_mapDelete_sublist (ps : List (Nat × Job)) (m : JobMap) :
    (ps.foldl (fun mm p => mapDelete mm p.1) m).Sublist m := by
  induction ps generalizing m with
  | nil => simp
  | cons p ps ih =>
    exact (ih (mapDelete m p.1)).trans (mapDelete_sublist m p.1)

lemma keysNodup_sublist {m m' : JobMap} (h : m'.Sublist m) (hnd : keysNodup m) :
    keysNodup m' := (h.map Prod.fst).nodup hnd

lemma evictJobs_sublist (m : JobMap) : (evictJobs m).Sublist m := by
  unfold evictJobs
  split
  · exact foldl_mapDelete_sublist _ m
  · exact List.Sublist.refl m

lemma sweepJobs_sublist (now : Nat) (m : JobMap) : (sweepJobs now m).Sublist m :=
  List.filter_sublist m

lemma cleanup_jobs (now : Nat) (s : SysState) :
    (cleanupOldJobs now s).jobs = evictJobs (sweepJobs now s.jobs) := rfl

lemma cleanup_fs (now : Nat) (s : SysState) :
    (cleanupOldJobs now s).fs =
      (expiredJobs now s.jobs).foldl (fun fs p => fsRemove fs (.out p.1)) s.fs := rfl

lemma cleanup_jobs_sublist (now : Nat) (s : SysState) :
    (cleanupOldJobs now s).jobs.Sublist s.jobs :=
  (evictJobs_sublist _).trans (sweepJobs_sublist now s.jobs)

lemma mapGet_of_sublist {m m' : JobMap} {k : Nat} {v : Job} (hs : m'.Sublist m)
    (hnd : keysNodup m) (h : mapGet m' k = some v) : mapGet m k = some v :=
  mem_mapGet hnd (hs.mem (mapGet_eq_some_mem h))

lemma fsStat_write_self (fs : FsState) (p : JPath) (sz : Nat) :
    fsStat (fsWrite fs p sz) p = some sz := by
  simp [fsWrite, fsStat, List.find?]

lemma fsStat_cons_ne (fs : FsState) (e : JPath × Nat) (q : JPath) (h : e.1 ≠ q) :
    fsStat (e :: fs) q = fsStat fs q := by
  have hb : (e.1 == q) = false := by simp [h]
  simp [fsStat, List.find?, hb]

lemma fsStat_filter_ne (fs : FsState) (p q : JPath) (h : q ≠ p) :
    fsStat (fs.filter (fun e => !(e.1 == p))) q = fsStat fs q := by
  induction fs with
  | nil => rfl
  | cons e fs ih =>
    by_cases hep : e.1 = p
    · rw [List.filter_cons_of_neg (by simp [hep])]
      rw [ih, fsStat_cons_ne _ _ _ (by rw [hep]; exact Ne.symm h)]
    · rw [List.filter_cons_of_pos (by simp [hep])]
      by_cases heq : e.1 = q
      · simp [fsStat, List.find?, heq]
      · rw [fsStat_cons_ne _ _ _ heq, fsStat_cons_ne _ _ _ heq, ih]

lemma fsStat_write_ne (fs : FsState) (p q : JPath) (sz : Nat) (h : q ≠ p) :
    fsStat (fsWrite fs p sz) q = fsStat fs q := by
  unfold fsWrite
  rw [fsStat_cons_ne _ _ _ (Ne.symm h), fsStat_filter_ne _ _ _ h]

lemma fsStat_remove_self (fs : FsState) (p : JPath) :
    fsStat (fsRemove fs p) p = none := by
  induction fs with
  | nil => rfl
  | cons e fs ih =>
    by_cases hep : e.1 = p
    · rw [fsRemove, List.filter_cons_of_neg (by simp [hep])]
      exact ih
    · rw [fsRemove, List.filter_cons_of_pos (by simp [hep])]
      rw [fsStat_cons_ne _ _ _ hep]
      exact ih

lemma fsStat_remove_ne (fs : FsState) (p q : JPath) (h : q ≠ p) :
    fsStat (fsRemove fs p) q = fsStat fs q :=
  fsStat_filter_ne fs p q h

lemma fsStat_foldl_remove_ne (ps : List (Nat × Job)) (fs : FsState) (q : JPath)
    (h : ∀ p ∈ ps, q ≠ JPath.out p.1) :
    fsStat (ps.foldl (fun fs p => fsRemove fs (.out p.1)) fs) q = fsStat fs q := by
  induction ps generalizing fs with
  | nil => rfl
  | cons p ps ih =>
    rw [List.foldl_cons, ih _ (fun r hr => h r (.tail _ hr)),
      fsStat_remove_ne _ _ _ (h p (.head _))]

lemma fsStat_foldl_remove_none (ps : List (Nat × Job)) (fs : FsState) (q : JPath)
    (h : fsStat fs q = none) :
    fsStat (ps.foldl (fun fs p => fsRemove fs (.out p.1)) fs) q = none := by
  induction ps generalizing fs with
  | nil => exact h
  | cons p ps ih =>
    rw [List.foldl_cons]
    refine ih _ ?_
    by_cases hq : q = JPath.out p.1
    · rw [hq]; exact fsStat_remove_self fs _
    · rw [fsStat_remove_ne _ _ _ hq]; exact h

lemma fsStat_foldl_remove_mem (ps : List (Nat × Job)) (fs : FsState) (p0 : Nat × Job)
    (h : p0 ∈ ps) :
    fsStat (ps.foldl (fun fs p => fsRemove fs (.out p.1)) fs) (.out p0.1) = none := by
  induction ps generalizing fs with
  | nil => simp at h
  | cons p ps ih =>
    rcases List.mem_cons.1 h with h | h
    · rw [List.foldl_cons]
      exact fsStat_foldl_remove_none ps _ _ (h ▸ fsStat_remove_self fs _)
    · rw [List.foldl_cons]
      exact ih _ h

lemma base64Val_A : base64Val 'A' = some 0 := by decide

lemma filterMap_base64_replicate_A :
    ∀ n, (List.replicate n 'A').filterMap base64Val = List.replicate n 0 := by
  intro n
  induction n with
  | zero => rfl
  | succ n ih =>
    rw [List.replicate_succ, List.replicate_succ, List.filterMap_cons, base64Val_A, ih]

lemma decodeB64Groups_cons4 (l : List Nat) :
    decodeB64Groups (0 :: 0 :: 0 :: 0 :: l) = 0 :: 0 :: 0 :: decodeB64Groups l := by
  simp [decodeB64Groups]

lemma decodeB64Groups_replicate :
    ∀ m, decodeB64Groups (List.replicate (4 * m) 0) = List.replicate (3 * m) 0 := by
  intro m
  induction m with
  | zero => rfl
  | succ m ih =>
    have h4 : 4 * (m + 1) = 4 + 4 * m := by ring
    have h3 : 3 * (m + 1) = 3 + 3 * m := by ring
    rw [h4, h3, List.replicate_add, List.replicate_add]
    rw [show List.replicate 4 (0 : Nat) = [0, 0, 0, 0] from rfl,
      show List.replicate 3 (0 : Nat) = [0, 0, 0] from rfl]
    simp only [List.cons_append, List.nil_append]
    rw [decodeB64Groups_cons4, ih]

lemma decode_aStr : nodeBase64Decode aStr = List.replicate 1002 0 := by
  unfold nodeBase64Decode aStr
  rw [show (String.mk (List.replicate 1336 'A')).data = List.replicate 1336 'A' from rfl]
  rw [filterMap_base64_replicate_A]
  rw [show (1336 : Nat) = 4 * 334 from rfl]
  rw [decodeB64Groups_replicate]

lemma jsFalsy_aStr : jsFalsy (some aStr) = false := by
  show (aStr.data.isEmpty) = false
  rw [show aStr.data = List.replicate 1336 'A' from rfl]
  rw [show (1336 : Nat) = 1335 + 1 from rfl, List.replicate_succ]
  rfl

lemma mergeHandler_aStr (s : SysState) (id now : Nat) :
    mergeHandler s id now (some aStr) (some aStr) none =
      (.accepted id id,
       { jobs := mapSet s.jobs id (processingJob now 1 1 none)
         fs := fsWrite (fsWrite s.fs (.img id) 1002) (.aud id) 1002 }) := by
  unfold mergeHandler
  rw [jsFalsy_aStr]
  simp only [Bool.or_self, Bool.false_eq_true, if_false, Option.getD_some,
    bufferFromBase64, decode_aStr, List.length_replicate]
  norm_num [roundDiv]

lemma wAfter_jobs : ∀ n, (wAfter n).st.jobs = (List.range n).map (fun i => (i, pJob)) := by
  intro n
  induction n with
  | zero => rfl
  | succ n ih =>
    have h := mergeHandler_aStr (wAfter n).st n 0
    show (submitStep (wAfter n) n 0 (some aStr) (some aStr) none).st.jobs = _
    simp only [submitStep, h]
    rw [ih, mapSet_fresh_append (m := (List.range n).map (fun i => (i, pJob)))
      (processingJob 0 1 1 none) ?_]
    · rw [List.range_succ, List.map_append]
      rfl
    · intro p hp
      rcases List.mem_map.1 hp with ⟨i, hi, rfl⟩
      have : i < n := List.mem_range.1 hi
      simp
      omega

lemma wAfter_pending : ∀ n, (wAfter n).pending = (List.range n).reverse := by
  intro n
  induction n with
  | zero => rfl
  | succ n ih =>
    have h := mergeHandler_aStr (wAfter n).st n 0
    show (submitStep (wAfter n) n 0 (some aStr) (some aStr) none).pending = _
    simp only [submitStep, h]
    rw [ih, List.range_succ, List.reverse_append]
    rfl

lemma wAfter_used : ∀ n, (wAfter n).used = (List.range n).reverse := by
  intro n
  induction n with
  | zero => rfl
  | succ n ih =>
    show (submitStep (wAfter n) n 0 (some aStr) (some aStr) none).used = _
    simp only [submitStep]
    rw [ih, List.range_succ, List.reverse_append]
    rfl

lemma reachable_wAfter : ∀ n, Reachable (wAfter n) := by
  intro n
  induction n with
  | zero => exact .init
  | succ n ih =>
    refine .next ih (Step.submit _ n 0 _ _ _ ?_)
    rw [wAfter_used]
    simp

lemma processVideo_failure_jobs (s : SysState) (id started now : Nat)
    (caption : Option String) (msg : String) (written : Option Nat) :
    (processVideo s id started now caption (.failure msg) written).jobs =
      mapSet s.jobs id
        (errorJob msg (jsOrNow ((mapGet s.jobs id).map Job.createdAt) now)) := rfl

lemma processVideo_success_eq (s : SysState) (id started now : Nat)
    (caption : Option String) (stderr : String) (sz : Nat) (hsz : 200000 ≤ sz)
    (j : Job) (hj : mapGet s.jobs id = some j) :
    processVideo s id started now caption (.success stderr) (some sz) =
      { jobs := mapSet s.jobs id
          (completeJob id sz (roundDiv (now - started) 1000) (rawTextOf caption) j.createdAt)
        fs := fsRemove (fsRemove (fsWrite s.fs (.out id) sz) (.img id)) (.aud id) } := by
  unfold processVideo
  simp only [encoderFs, fsStat_write_self, hj]
  rw [if_neg (Nat.not_lt.2 hsz)]


lemma sortByAge_perm (m : JobMap) : (sortByAge m).Perm m :=
  List.perm_insertionSort ageLE m

lemma sortByAge_sorted (m : JobMap) : List.Sorted ageLE (sortByAge m) :=
  List.sorted_insertionSort ageLE m

lemma contains_eq_decide_mem (l : List Nat) (a : Nat) : l.contains a = decide (a ∈ l) :=
  List.elem_eq_mem a l

lemma mapDelete_eq_filter {m : JobMap} (hnd : keysNodup m) (k : Nat) :
    mapDelete m k = m.filter (fun p => !(p.1 == k)) := by
  induction m with
  | nil => rfl
  | cons q qs ih =>
    have hnd' : keysNodup qs := (List.nodup_cons.1 hnd).2
    by_cases hq : q.1 = k
    · rw [mapDelete, if_pos hq, List.filter_cons_of_neg (by simp [hq])]
      have hnok : ∀ p ∈ qs, p.1 ≠ k := by
        intro p hp he
        have hk : q.1 ∈ qs.map Prod.fst := by
          rw [hq, ← he]
          exact List.mem_map.2 ⟨p, hp, rfl⟩
        exact (List.nodup_cons.1 hnd).1 hk
      rw [List.filter_eq_self.2 (fun p hp => by simp [hnok p hp])]
    · rw [mapDelete, if_neg hq, List.filter_cons_of_pos (by simp [hq]), ih hnd']

lemma foldl_mapDelete_eq_filter (ps : List (Nat × Job)) (m : JobMap) (hnd : keysNodup m) :
    ps.foldl (fun mm p => mapDelete mm p.1) m =
      m.filter (fun q => !((ps.map Prod.fst).contains q.1)) := by
  induction ps generalizing m with
  | nil => simp
  | cons p ps ih =>
    have h1 : mapDelete m p.1 = m.filter (fun q => !(q.1 == p.1)) :=
      mapDelete_eq_filter hnd p.1
    have hnd2 : keysNodup (mapDelete m p.1) :=
      keysNodup_sublist (mapDelete_sublist m p.1) hnd
    rw [List.foldl_cons, ih _ hnd2, h1, List.filter_filter]
    congr 1
    funext q
    by_cases hqp : q.1 = p.1
    · simp [hqp, contains_eq_decide_mem]
    · by_cases hqs : q.1 ∈ ps.map Prod.fst
      · simp [hqp, hqs, contains_eq_decide_mem]
      · simp [hqp, hqs, contains_eq_decide_mem]

lemma sortSplit_key_disjoint {m : JobMap} (hnd : keysNodup m) (e : Nat) :
    ∀ p ∈ (sortByAge m).drop e, p.1 ∉ ((sortByAge m).take e).map Prod.fst := by
  intro p hp hmem
  have hkeys : ((sortByAge m).map Prod.fst).Nodup :=
    ((sortByAge_perm m).map Prod.fst).nodup_iff.2 hnd
  rw [← List.take_append_drop e (sortByAge m), List.map_append] at hkeys
  rcases List.nodup_append.1 hkeys with ⟨-, -, hdisj⟩
  exact hdisj hmem (List.mem_map.2 ⟨p, hp, rfl⟩)

lemma evictJobs_eq_of_lt {m : JobMap} (h : MAX_ACTIVE_JOBS < m.length) :
    evictJobs m = ((sortByAge m).take (m.length - MAX_ACTIVE_JOBS)).foldl
      (fun mm p => mapDelete mm p.1) m := by
  unfold evictJobs
  rw [if_pos h]

lemma filter_take_sort_eq_drop {m : JobMap} (hnd : keysNodup m) (e : Nat) :
    (sortByAge m).filter
        (fun q => !((((sortByAge m).take e).map Prod.fst).contains q.1)) =
      (sortByAge m).drop e := by
  set K := ((sortByAge m).take e).map Prod.fst with hK
  have h1 : ((sortByAge m).take e).filter (fun q => !(K.contains q.1)) = [] := by
    rw [List.filter_eq_nil_iff]
    intro p hp
    have hm : p.1 ∈ K := by
      rw [hK]
      exact List.mem_map.2 ⟨p, hp, rfl⟩
    simp [contains_eq_decide_mem, hm]
  have h2 : ((sortByAge m).drop e).filter (fun q => !(K.contains q.1)) =
      (sortByAge m).drop e := by
    rw [List.filter_eq_self]
    intro p hp
    have hm : p.1 ∉ K := by
      rw [hK]
      exact sortSplit_key_disjoint hnd e p hp
    simp [contains_eq_decide_mem, hm]
  calc (sortByAge m).filter (fun q => !(K.contains q.1))
      = ((sortByAge m).take e ++ (sortByAge m).drop e).filter
          (fun q => !(K.contains q.1)) := by rw [List.take_append_drop]
    _ = (sortByAge m).drop e := by rw [List.filter_append, h1, h2, List.nil_append]

lemma evictJobs_length {m : JobMap} (hnd : keysNodup m)
    (h : MAX_ACTIVE_JOBS < m.length) :
    (evictJobs m).length = MAX_ACTIVE_JOBS := by
  rw [evictJobs_eq_of_lt h, foldl_mapDelete_eq_filter _ _ hnd]
  have hperm := ((sortByAge_perm m).filter
    (fun q => !((((sortByAge m).take (m.length - MAX_ACTIVE_JOBS)).map
      Prod.fst).contains q.1)))
  rw [← hperm.length_eq, filter_take_sort_eq_drop hnd, List.length_drop,
    (sortByAge_perm m).length_eq]
  omega

lemma evictJobs_length_le {m : JobMap} (hnd : keysNodup m) :
    (evictJobs m).length ≤ MAX_ACTIVE_JOBS ∨ evictJobs m = m := by
  by_cases h : MAX_ACTIVE_JOBS < m.length
  · left
    exact (evictJobs_length hnd h).le
  · right
    unfold evictJobs
    rw [if_neg h]

lemma evictJobs_oldest {m : JobMap} (hnd : keysNodup m) :
    ∀ p ∈ m, p ∉ evictJobs m → ∀ q ∈ evictJobs m, p.2.createdAt ≤ q.2.createdAt := by
  intro p hp hpn q hq
  by_cases h : MAX_ACTIVE_JOBS < m.length
  · rw [evictJobs_eq_of_lt h, foldl_mapDelete_eq_filter _ _ hnd] at hpn hq
    set e := m.length - MAX_ACTIVE_JOBS with he
    set K := ((sortByAge m).take e).map Prod.fst with hK
    have hpK : p.1 ∈ K := by
      by_contra hc
      exact hpn (List.mem_filter.2 ⟨hp, by simp [contains_eq_decide_mem, hc]⟩)
    have hpS : p ∈ (sortByAge m).take e ++ (sortByAge m).drop e := by
      rw [List.take_append_drop]
      exact (sortByAge_perm m).mem_iff.2 hp
    have hptake : p ∈ (sortByAge m).take e := by
      rcases List.mem_append.1 hpS with h' | h'
      · exact h'
      · have hd := sortSplit_key_disjoint hnd e p h'
        rw [← hK] at hd
        exact absurd hpK hd
    have hq1 := (List.mem_filter.1 hq).1
    have hq2 := (List.mem_filter.1 hq).2
    have hqS : q ∈ (sortByAge m).take e ++ (sortByAge m).drop e := by
      rw [List.take_append_drop]
      exact (sortByAge_perm m).mem_iff.2 hq1
    have hqdrop : q ∈ (sortByAge m).drop e := by
      rcases List.mem_append.1 hqS with h' | h'
      · exfalso
        have hm : q.1 ∈ K := by
          rw [hK]
          exact List.mem_map.2 ⟨q, h', rfl⟩
        simp [contains_eq_decide_mem, hm] at hq2
      · exact h'
    have hsorted := sortByAge_sorted m
    rw [← List.take_append_drop e (sortByAge m)] at hsorted
    exact (List.pairwise_append.1 hsorted).2.2 p hptake q hqdrop
  · unfold evictJobs at hpn
    rw [if_neg h] at hpn
    exact absurd hp hpn

lemma cleanup_jobs_length_le {s : SysState} (hnd : keysNodup s.jobs) (now : Nat) :
    (cleanupOldJobs now s).jobs.length ≤ MAX_ACTIVE_JOBS ∨
      (cleanupOldJobs now s).jobs = sweepJobs now s.jobs := by
  rw [cleanup_jobs]
  exact evictJobs_length_le (keysNodup_sublist (sweepJobs_sublist _ _) hnd)

/-- Field-presence shape of a registry record (spec §3): `url`/`size` are
present iff the status is `complete`, `error` is present iff the status is
`error`. -/
def fieldShape (j : Job) : Prop :=
  (j.url.isSome ↔ j.status = .complete) ∧
  (j.size.isSome ↔ j.status = .complete) ∧
  (j.errorMsg.isSome ↔ j.status = .error)

lemma fieldShape_processingJob (now ikb akb : Nat) (caption : Option String) :
    fieldShape (processingJob now ikb akb caption) := by
  simp [fieldShape, processingJob]

lemma fieldShape_completeJob (id sz ptime : Nat) (rawText : String) (createdAt : Nat) :
    fieldShape (completeJob id sz ptime rawText createdAt) := by
  simp [fieldShape, completeJob]

lemma fieldShape_errorJob (msg : String) (createdAt : Nat) :
    fieldShape (errorJob msg createdAt) := by
  simp [fieldShape, errorJob]

lemma keysNodup_mapSet_any {m : JobMap} (k : Nat) (v : Job) (hnd : keysNodup m) :
    keysNodup (mapSet m k v) := by
  induction m with
  | nil => simp [mapSet, keysNodup]
  | cons p ps ih =>
    have hnd1 := (List.nodup_cons.1 hnd).1
    have hnd2 := (List.nodup_cons.1 hnd).2
    by_cases hp : p.1 = k
    · rw [mapSet, if_pos hp]
      unfold keysNodup
      simp only [List.map_cons]
      exact List.nodup_cons.2 ⟨hp ▸ hnd1, hnd2⟩
    · rw [mapSet, if_neg hp]
      unfold keysNodup
      simp only [List.map_cons]
      refine List.nodup_cons.2 ⟨?_, ih hnd2⟩
      rcases keys_mapSet ps k v with h | h
      · rw [h]
        exact hnd1
      · rw [h]
        simp only [List.mem_append, List.mem_singleton]
        rintro (h' | h')
        · exact hnd1 h'
        · exact hp h'

lemma processVideo_jobs_cases (s : SysState) (id started now : Nat)
    (caption : Option String) (encode : ExecOutcome) (written : Option Nat) :
    ∃ r : Job, (processVideo s id started now caption encode written).jobs =
        mapSet s.jobs id r ∧ r.status ≠ .processing ∧ fieldShape r := by
  cases encode with
  | failure msg =>
    refine ⟨_, processVideo_failure_jobs s id started now caption msg written, ?_, ?_⟩
    · simp [errorJob]
    · exact fieldShape_errorJob _ _
  | success stderr =>
    simp only [processVideo]
    cases written with
    | none =>
      simp only [encoderFs]
      cases hst : fsStat s.fs (.out id) with
      | none =>
        exact ⟨_, rfl, by simp [errorJob], fieldShape_errorJob _ _⟩
      | some sz =>
        dsimp only
        by_cases hsz : sz < 200000
        · rw [if_pos hsz]
          exact ⟨_, rfl, by simp [errorJob], fieldShape_errorJob _ _⟩
        · rw [if_neg hsz]
          cases hget : mapGet s.jobs id with
          | none => exact ⟨_, rfl, by simp [errorJob], fieldShape_errorJob _ _⟩
          | some j => exact ⟨_, rfl, by simp [completeJob], fieldShape_completeJob _ _ _ _ _⟩
    | some w =>
      simp only [encoderFs]
      rw [fsStat_write_self]
      dsimp only
      by_cases hsz : w < 200000
      · rw [if_pos hsz]
        exact ⟨_, rfl, by simp [errorJob], fieldShape_errorJob _ _⟩
      · rw [if_neg hsz]
        cases hget : mapGet s.jobs id with
        | none => exact ⟨_, rfl, by simp [errorJob], fieldShape_errorJob _ _⟩
        | some j => exact ⟨_, rfl, by simp [completeJob], fieldShape_completeJob _ _ _ _ _⟩

/-- Inductive invariant of reachable worlds: unique registry keys, every
registry key and pending task id was minted, pending ids are distinct, a
pending (not yet finished) job's record is still `processing`, and every
record has the status-determined field shape. -/
def WInv (w : World) : Prop :=
  keysNodup w.st.jobs ∧
  (∀ p ∈ w.st.jobs, p.1 ∈ w.used) ∧
  (∀ id ∈ w.pending, id ∈ w.used) ∧
  w.pending.Nodup ∧
  (∀ id ∈ w.pending, ∀ j, mapGet w.st.jobs id = some j → j.status = .processing) ∧
  (∀ p ∈ w.st.jobs, fieldShape p.2)

lemma inv_w0 : WInv w0 := by
  refine ⟨?_, ?_, ?_, ?_, ?_, ?_⟩ <;> simp [w0, keysNodup]

lemma mergeHandler_cases (s : SysState) (id now : Nat) (image audio caption : Option String) :
    ((mergeHandler s id now image audio caption).2 = s ∧
      ∀ a b, (mergeHandler s id now image audio caption).1 ≠ .accepted a b) ∨
    (∃ ikb akb fss,
      mergeHandler s id now image audio caption =
        (.accepted id id,
         { jobs := mapSet s.jobs id (processingJob now ikb akb caption), fs := fss })) := by
  unfold mergeHandler
  by_cases h1 : (jsFalsy image || jsFalsy audio) = true
  · rw [if_pos h1]
    left
    exact ⟨rfl, by intro a b; simp⟩
  · rw [if_neg h1]
    simp only [bufferFromBase64]
    by_cases h2 : (decide ((nodeBase64Decode (image.getD "")).length < 1000) ||
        decide ((nodeBase64Decode (audio.getD "")).length < 1000)) = true
    · rw [if_pos h2]
      left
      exact ⟨rfl, by intro a b; simp⟩
    · rw [if_neg h2]
      right
      exact ⟨_, _, _, rfl⟩

lemma inv_submit (w : World) (id now : Nat) (image audio caption : Option String)
    (hInv : WInv w) (hfresh : id ∉ w.used) :
    WInv (submitStep w id now image audio caption) := by
  obtain ⟨hnd, hused, hpu, hpnd, hpend, hshape⟩ := hInv
  rcases mergeHandler_cases w.st id now image audio caption with
    ⟨heq, hno⟩ | ⟨ikb, akb, fss, heq⟩
  · have hst : (submitStep w id now image audio caption).st = w.st := heq
    have hpend' : (submitStep w id now image audio caption).pending = w.pending := by
      show (match (mergeHandler w.st id now image audio caption).1 with
        | .accepted _ _ => id :: w.pending
        | _ => w.pending) = w.pending
      cases hr : (mergeHandler w.st id now image audio caption).1 with
      | accepted a b => exact absurd hr (hno a b)
      | missing a b => rfl
      | invalidBase64 => rfl
      | fileTooSmall => rfl
    have huse : (submitStep w id now image audio caption).used = id :: w.used := rfl
    refine ⟨?_, ?_, ?_, ?_, ?_, ?_⟩
    · rw [hst]; exact hnd
    · rw [hst, huse]
      intro p hp
      exact List.mem_cons_of_mem _ (hused p hp)
    · rw [hpend', huse]
      intro i hi
      exact List.mem_cons_of_mem _ (hpu i hi)
    · rw [hpend']; exact hpnd
    · rw [hpend', hst]; exact hpend
    · rw [hst]; exact hshape
  · have hfreshKeys : ∀ p ∈ w.st.jobs, p.1 ≠ id := by
      intro p hp he
      exact hfresh (he ▸ hused p hp)
    have hst : (submitStep w id now image audio caption).st =
        { jobs := mapSet w.st.jobs id (processingJob now ikb akb caption), fs := fss } := by
      show (mergeHandler w.st id now image audio caption).2 = _
      rw [heq]
    have hpend' : (submitStep w id now image audio caption).pending = id :: w.pending := by
      show (match (mergeHandler w.st id now image audio caption).1 with
        | .accepted _ _ => id :: w.pending
        | _ => w.pending) = id :: w.pending
      rw [heq]
    have huse : (submitStep w id now image audio caption).used = id :: w.used := rfl
    have hidpend : id ∉ w.pending := fun hc => hfresh (hpu id hc)
    refine ⟨?_, ?_, ?_, ?_, ?_, ?_⟩
    · rw [hst]
      exact keysNodup_mapSet id (processingJob now ikb akb caption) hnd hfreshKeys
    · rw [hst, huse]
      intro p hp
      rcases mem_mapSet hp with h | h
      · rw [h]
        exact List.mem_cons_self _ _
      · exact List.mem_cons_of_mem _ (hused p h)
    · rw [hpend', huse]
      intro i hi
      rcases List.mem_cons.1 hi with h | h
      · rw [h]; exact List.mem_cons_self _ _
      · exact List.mem_cons_of_mem _ (hpu i h)
    · rw [hpend']
      exact List.nodup_cons.2 ⟨hidpend, hpnd⟩
    · rw [hpend', hst]
      intro i hi j hj
      rcases List.mem_cons.1 hi with h | h
      · rw [h] at hj
        rw [mapGet_set_self] at hj
        cases hj
        rfl
      · have hne : i ≠ id := fun he => hfresh (he ▸ hpu i h)
        rw [mapGet_set_ne _ _ _ _ hne] at hj
        exact hpend i h j hj
    · rw [hst]
      intro p hp
      rcases mem_mapSet hp with h | h
      · rw [h]
        exact fieldShape_processingJob now ikb akb caption
      · exact hshape p h

lemma inv_finish (w : World) (id started now : Nat) (caption : Option String)
    (encode : ExecOutcome) (written : Option Nat) (hInv : WInv w) (hid : id ∈ w.pending) :
    WInv (finishStep w id started now caption encode written) := by
  obtain ⟨hnd, hused, hpu, hpnd, hpend, hshape⟩ := hInv
  obtain ⟨r, hr, hrs, hrshape⟩ :=
    processVideo_jobs_cases w.st id started now caption encode written
  have hjobs : (finishStep w id started now caption encode written).st.jobs =
      mapSet w.st.jobs id r := hr
  have hpend' : (finishStep w id started now caption encode written).pending =
      w.pending.erase id := rfl
  have huse : (finishStep w id started now caption encode written).used = w.used := rfl
  refine ⟨?_, ?_, ?_, ?_, ?_, ?_⟩
  · show keysNodup (finishStep w id started now caption encode written).st.jobs
    rw [hjobs]
    exact keysNodup_mapSet_any id r hnd
  · rw [huse]
    intro p hp
    rw [hjobs] at hp
    rcases mem_mapSet hp with h | h
    · rw [h]
      exact hpu id hid
    · exact hused p h
  · rw [hpend', huse]
    intro i hi
    exact hpu i (List.erase_subset _ _ hi)
  · rw [hpend']
    exact hpnd.erase id
  · rw [hpend']
    intro i hi j hj
    have hi' := (List.Nodup.mem_erase_iff hpnd).1 hi
    rw [hjobs, mapGet_set_ne _ _ _ _ hi'.1] at hj
    exact hpend i hi'.2 j hj
  · intro p hp
    rw [hjobs] at hp
    rcases mem_mapSet hp with h | h
    · rw [h]
      exact hrshape
    · exact hshape p h

lemma inv_tick (w : World) (now : Nat) (hInv : WInv w) : WInv (tickStep w now) := by
  obtain ⟨hnd, hused, hpu, hpnd, hpend, hshape⟩ := hInv
  have hsub : (tickStep w now).st.jobs.Sublist w.st.jobs :=
    cleanup_jobs_sublist now w.st
  refine ⟨?_, ?_, ?_, ?_, ?_, ?_⟩
  · exact keysNodup_sublist hsub hnd
  · intro p hp
    exact hused p (hsub.subset hp)
  · exact hpu
  · exact hpnd
  · intro i hi j hj
    exact hpend i hi j (mapGet_of_sublist hsub hnd hj)
  · intro p hp
    exact hshape p (hsub.subset hp)

lemma reachable_inv {w : World} (hr : Reachable w) : WInv w := by
  induction hr with
  | init => exact inv_w0
  | next _ hs ih =>
    cases hs with
    | submit id now image audio caption hfresh => exact inv_submit _ _ _ _ _ _ ih hfresh
    | finish id started now caption encode written hid =>
      exact inv_finish _ _ _ _ _ _ _ ih hid
    | tick now => exact inv_tick _ _ ih

lemma processVideo_cases (s : SysState) (id started now : Nat) (caption : Option String)
    (encode : ExecOutcome) (written : Option Nat) :
    (∃ msg c, processVideo s id started now caption encode written =
      { jobs := mapSet s.jobs id (errorJob msg c)
        fs := fsRemove (fsRemove (fsRemove (encoderFs s id written) (.out id))
                (.img id)) (.aud id) }) ∨
    (∃ sz j, 200000 ≤ sz ∧ fsStat (encoderFs s id written) (.out id) = some sz ∧
      mapGet s.jobs id = some j ∧
      processVideo s id started now caption encode written =
      { jobs := mapSet s.jobs id
          (completeJob id sz (roundDiv (now - started) 1000) (rawTextOf caption) j.createdAt)
        fs := fsRemove (fsRemove (encoderFs s id written) (.img id)) (.aud id) }) := by
  cases encode with
  | failure msg =>
    left
    exact ⟨msg, _, rfl⟩
  | success stderr =>
    simp only [processVideo]
    cases hst : fsStat (encoderFs s id written) (.out id) with
    | none =>
      left
      exact ⟨_, _, rfl⟩
    | some sz =>
      dsimp only
      by_cases hsz : sz < 200000
      · rw [if_pos hsz]
        left
        exact ⟨_, _, rfl⟩
      · rw [if_neg hsz]
        cases hget : mapGet s.jobs id with
        | none =>
          left
          exact ⟨_, _, rfl⟩
        | some j =>
          right
          exact ⟨sz, j, Nat.not_lt.1 hsz, rfl, rfl, rfl⟩

/-- C7: at every reachable state, every registry record has `url` and `size`
present iff its status is `complete`, and `error` present iff its status is
`error`; in particular a freshly created `processing` record carries none of
these fields. -/
theorem C7_theorem (w : World) (hr : Reachable w) (id : Nat) (j : Job)
    (hget : mapGet w.st.jobs id = some j) :
    ((j.url.isSome ↔ j.status = .complete) ∧
     (j.size.isSome ↔ j.status = .complete) ∧
     (j.errorMsg.isSome ↔ j.status = .error)) ∧
    (∀ now ikb akb caption, (processingJob now ikb akb caption).url = none ∧
      (processingJob now ikb akb caption).size = none ∧
      (processingJob now ikb akb caption).errorMsg = none) := by
  obtain ⟨-, -, -, -, -, hshape⟩ := reachable_inv hr
  refine ⟨hshape (id, j) (mapGet_eq_some_mem hget), ?_⟩
  intro now ikb akb caption
  simp [processingJob]

/-- Witness for C7 at the world reached by one accepted submission. -/
theorem C7_witness :
    (pJob.url.isSome ↔ pJob.status = .complete) ∧
    (pJob.size.isSome ↔ pJob.status = .complete) ∧
    (pJob.errorMsg.isSome ↔ pJob.status = .error) :=
  (C7_theorem (wAfter 1) (reachable_wAfter 1) 0 pJob
    (by rw [wAfter_jobs]; decide)).1

/-- C6: along every step from a reachable state, a terminal record is never
overwritten (`complete`/`error` are sticky), no record re-enters
`processing`, and the Janitor tick only deletes records, never rewriting a
surviving record. -/
theorem C6_theorem (w w' : World) (hr : Reachable w) (hs : Step w w') (id : Nat) :
    (∀ j j', mapGet w.st.jobs id = some j → mapGet w'.st.jobs id = some j' →
      (j.status ≠ .processing → j' = j) ∧
      (j'.status = .processing → j.status = .processing)) ∧
    (∀ now j', mapGet (cleanupOldJobs now w.st).jobs id = some j' →
      mapGet w.st.jobs id = some j') := by
  obtain ⟨hnd, hused, hpu, hpnd, hpend, hshape⟩ := reachable_inv hr
  constructor
  · intro j j' hj hj'
    cases hs with
    | submit id' now image audio caption hfresh =>
      have hne : id ≠ id' := by
        intro he
        exact hfresh (he ▸ hused (id, j) (mapGet_eq_some_mem hj))
      rcases mergeHandler_cases w.st id' now image audio caption with
        ⟨heq, -⟩ | ⟨ikb, akb, fss, heq⟩
      · have hst : (submitStep w id' now image audio caption).st = w.st := heq
        rw [hst, hj] at hj'
        cases hj'
        exact ⟨fun _ => rfl, fun h => h⟩
      · have hjobs : (submitStep w id' now image audio caption).st.jobs =
            mapSet w.st.jobs id' (processingJob now ikb akb caption) := by
          show (mergeHandler w.st id' now image audio caption).2.jobs = _
          rw [heq]
        rw [hjobs, mapGet_set_ne _ _ _ _ hne, hj] at hj'
        cases hj'
        exact ⟨fun _ => rfl, fun h => h⟩
    | finish id' started now caption encode written hid' =>
      obtain ⟨r, hrjobs, hrs, -⟩ :=
        processVideo_jobs_cases w.st id' started now caption encode written
      by_cases hne : id = id'
      · subst hne
        have hjp : j.status = .processing := hpend id hid' j hj
        exact ⟨fun hterm => absurd hjp hterm, fun _ => hjp⟩
      · have hjobs : (finishStep w id' started now caption encode written).st.jobs =
            mapSet w.st.jobs id' r := hrjobs
        rw [hjobs, mapGet_set_ne _ _ _ _ hne, hj] at hj'
        cases hj'
        exact ⟨fun _ => rfl, fun h => h⟩
    | tick now =>
      have hback := mapGet_of_sublist (cleanup_jobs_sublist now w.st) hnd hj'
      rw [hj] at hback
      cases hback
      exact ⟨fun _ => rfl, fun h => h⟩
  · intro now j' hj'
    exact mapGet_of_sublist (cleanup_jobs_sublist now w.st) hnd hj'

/-- Witness for C6: a submitted job finishing with an encoder failure. -/
theorem C6_witness :
    (pJob.status ≠ .processing → errorJob "boom" 0 = pJob) ∧
    ((errorJob "boom" 0).status = .processing → pJob.status = .processing) := by
  have hj : mapGet (wAfter 1).st.jobs 0 = some pJob := by
    rw [wAfter_jobs]
    decide
  have hj' : mapGet (finishStep (wAfter 1) 0 0 0 none (.failure "boom") none).st.jobs 0 =
      some (errorJob "boom" 0) := by
    show mapGet (processVideo (wAfter 1).st 0 0 0 none (.failure "boom") none).jobs 0 = _
    rw [processVideo_failure_jobs, hj, mapGet_set_self]
    rfl
  exact (C6_theorem (wAfter 1) _ (reachable_wAfter 1)
    (Step.finish (wAfter 1) 0 0 0 none (.failure "boom") none
      (by rw [wAfter_pending]; decide)) 0).1 pJob (errorJob "boom" 0) hj hj'

/-- C3: on every exit path of the background render task both scratch inputs
are removed; if the job's terminal record is `error` no artifact remains at
the output path, and if it is `complete` the artifact is retained
(non-empty) — the orchestrator never deletes a successful output. -/
theorem C3_theorem (s : SysState) (id started now : Nat) (caption : Option String)
    (encode : ExecOutcome) (written : Option Nat) :
    fsStat (processVideo s id started now caption encode written).fs (.img id) = none ∧
    fsStat (processVideo s id started now caption encode written).fs (.aud id) = none ∧
    ∀ j, mapGet (processVideo s id started now caption encode written).jobs id = some j →
      (j.status = .error →
        fsStat (processVideo s id started now caption encode written).fs (.out id) = none) ∧
      (j.status = .complete →
        ∃ sz, fsStat (processVideo s id started now caption encode written).fs (.out id) =
          some sz ∧ 0 < sz) := by
  rcases processVideo_cases s id started now caption encode written with
    ⟨msg, c, heq⟩ | ⟨sz, j0, hsz, hst, hget, heq⟩
  · rw [heq]
    refine ⟨?_, ?_, ?_⟩
    · rw [fsStat_remove_ne _ _ _ (show JPath.img id ≠ JPath.aud id by simp),
        fsStat_remove_self]
    · rw [fsStat_remove_self]
    · intro j hj
      rw [mapGet_set_self] at hj
      cases hj
      constructor
      · intro _
        rw [fsStat_remove_ne _ _ _ (show JPath.out id ≠ JPath.aud id by simp),
          fsStat_remove_ne _ _ _ (show JPath.out id ≠ JPath.img id by simp),
          fsStat_remove_self]
      · intro hc
        simp [errorJob] at hc
  · rw [heq]
    refine ⟨?_, ?_, ?_⟩
    · rw [fsStat_remove_ne _ _ _ (show JPath.img id ≠ JPath.aud id by simp),
        fsStat_remove_self]
    · rw [fsStat_remove_self]
    · intro j hj
      rw [mapGet_set_self] at hj
      cases hj
      constructor
      · intro hc
        simp [completeJob] at hc
      · intro _
        refine ⟨sz, ?_, by omega⟩
        rw [fsStat_remove_ne _ _ _ (show JPath.out id ≠ JPath.aud id by simp),
          fsStat_remove_ne _ _ _ (show JPath.out id ≠ JPath.img id by simp)]
        exact hst

/-- Witness for C3: a failed render on a state holding a partial artifact
has its inputs removed and its artifact deleted. -/
theorem C3_witness :
    fsStat (processVideo ⟨[(0, pJob)], [(JPath.out 0, 7)]⟩ 0 0 0 none
      (.failure "boom") none).fs (.img 0) = none ∧
    fsStat (processVideo ⟨[(0, pJob)], [(JPath.out 0, 7)]⟩ 0 0 0 none
      (.failure "boom") none).fs (.out 0) = none := by
  have h := C3_theorem ⟨[(0, pJob)], [(JPath.out 0, 7)]⟩ 0 0 0 none (.failure "boom") none
  refine ⟨h.1, ?_⟩
  have hget : mapGet (processVideo ⟨[(0, pJob)], [(JPath.out 0, 7)]⟩ 0 0 0 none
      (.failure "boom") none).jobs 0 = some (errorJob "boom" 0) := by decide
  exact (h.2.2 _ hget).1 (by decide)

/-- C2 (amended): a job is marked `complete` only after the existence check
and the size check pass; the recorded size is then at least the 200000-byte
floor (the code rejects only sizes strictly below it, so a 200000-byte file
completes), the artifact exists at the output path with that exact size,
and it is non-empty.  An exit code of zero alone is never sufficient. -/
theorem C2_theorem (s : SysState) (id started now : Nat) (caption : Option String)
    (encode : ExecOutcome) (written : Option Nat) (j : Job)
    (hj : mapGet (processVideo s id started now caption encode written).jobs id = some j)
    (hc : j.status = .complete) :
    ∃ sz, j.size = some sz ∧ 200000 ≤ sz ∧ 0 < sz ∧
      fsStat (processVideo s id started now caption encode written).fs (.out id) =
        some sz := by
  rcases processVideo_cases s id started now caption encode written with
    ⟨msg, c, heq⟩ | ⟨sz, j0, hsz, hst, hget, heq⟩
  · rw [heq, mapGet_set_self] at hj
    cases hj
    simp [errorJob] at hc
  · rw [heq, mapGet_set_self] at hj
    cases hj
    refine ⟨sz, rfl, hsz, by omega, ?_⟩
    rw [heq]
    rw [fsStat_remove_ne _ _ _ (show JPath.out id ≠ JPath.aud id by simp),
      fsStat_remove_ne _ _ _ (show JPath.out id ≠ JPath.img id by simp)]
    exact hst

/-- Witness for C2 at a concrete successful render of 250000 bytes. -/
theorem C2_witness :
    ∃ sz, (completeJob 0 250000 0 "FinanceTubeAI" 0).size = some sz ∧ 200000 ≤ sz ∧
      0 < sz ∧
      fsStat (processVideo ⟨[(0, pJob)], []⟩ 0 0 0 none (.success "") (some 250000)).fs
        (.out 0) = some sz :=
  C2_theorem ⟨[(0, pJob)], []⟩ 0 0 0 none (.success "") (some 250000)
    (completeJob 0 250000 0 "FinanceTubeAI" 0) (by decide) (by decide)

/-- Counterexample for C2 as stated: an output of exactly 200000 bytes is
accepted as `complete`, yet its recorded size does not strictly exceed the
200000-byte threshold. -/
theorem C2_counterexample :
    (mapGet (processVideo ⟨[(0, pJob)], []⟩ 0 0 0 none (.success "")
        (some 200000)).jobs 0).map Job.status = some JStatus.complete ∧
    (mapGet (processVideo ⟨[(0, pJob)], []⟩ 0 0 0 none (.success "")
        (some 200000)).jobs 0).bind Job.size = some 200000 ∧
    ¬ 200000 < 200000 := by
  refine ⟨by decide, by decide, by omega⟩

/-- C9 (amended): the failure message is stored verbatim in the registry
record and served as-is by the status endpoint — no truncation and no path
sanitization; the only bounded quantity is the console log snippet of the
encoder's stderr, cut at 300 characters (line 219). -/
theorem C9_theorem (s : SysState) (id started now : Nat) (caption : Option String)
    (msg : String) (written : Option Nat) :
    (∃ c, mapGet (processVideo s id started now caption (.failure msg) written).jobs id =
        some (errorJob msg c) ∧ (errorJob msg c).errorMsg = some msg) ∧
    (∀ stderr : String, (stderrLogSnippet stderr).data.length ≤ 300) := by
  constructor
  · refine ⟨jsOrNow ((mapGet s.jobs id).map Job.createdAt) now, ?_, rfl⟩
    rw [processVideo_failure_jobs, mapGet_set_self]
  · intro stderr
    show (stderr.data.take 300).length ≤ 300
    exact List.length_take_le 300 stderr.data

/-- A realistic rejection message of `execPromise`: `e.message` for a failed
invocation is "Command failed: " plus the full command line, embedding the
scratch paths, with captured stderr appended — 345 characters here. -/
def leakMsg : String :=
  "Command failed: ffmpeg -y -hide_banner -loglevel warning -loop 1 -framerate 1 -i " ++
  "temp/c1a2b3d4-e5f6-4a7b-8c9d-0e1f2a3b4c5d.jpg -i " ++
  "temp/c1a2b3d4-e5f6-4a7b-8c9d-0e1f2a3b4c5d.mp3 " ++
  String.mk (List.replicate 169 'x')

set_option maxRecDepth 8192 in
/-- Counterexample for C9 as stated: the status endpoint serves the raw
345-character message, full scratch paths included, with no truncation to
any bound and no sanitization. -/
theorem C9_counterexample :
    statusHandler (processVideo ⟨[(0, pJob)], []⟩ 0 0 0 none
      (.failure leakMsg) none) 0 = .ok 0 (errorJob leakMsg 0) ∧
    300 < leakMsg.data.length ∧
    (errorJob leakMsg 0).errorMsg = some leakMsg := by
  have h1 : mapGet (processVideo ⟨[(0, pJob)], []⟩ 0 0 0 none
      (.failure leakMsg) none).jobs 0 = some (errorJob leakMsg 0) := by
    rw [processVideo_failure_jobs,
      show mapGet (⟨[(0, pJob)], []⟩ : SysState).jobs 0 = some pJob from rfl,
      mapGet_set_self]
    rfl
  refine ⟨?_, ?_, rfl⟩
  · unfold statusHandler
    rw [h1]
  · decide

/-- The first bytes of a PNG payload (the 8-byte PNG signature). -/
def pngBytes : List Nat := [0x89, 0x50, 0x4E, 0x47, 0x0D, 0x0A, 0x1A, 0x0A]

/-- The first bytes of a JPEG/JFIF payload (SOI marker and APP0). -/
def jfifBytes : List Nat := [0xFF, 0xD8, 0xFF, 0xE0]

/-- Counterexample for C8 as stated: `src/index.js` writes every decoded
image — a PNG payload included — to a fixed `.jpg` path, performing no
magic-byte inspection at all. -/
theorem C8_counterexample :
    indexJsImageExt pngBytes = ".jpg" ∧ indexJsImageExt pngBytes ≠ ".png" := by
  exact ⟨rfl, by decide⟩

/-- C8 (amended): only the `src/unnamed/part_006` variant inspects leading
magic bytes, and it checks exactly the first two PNG signature bytes
(`0x89 0x50`), choosing `.png` on a match and falling back to `.jpg` for
everything else (JPEG/JFIF is the untested default, not detected);
`src/index.js` itself uses a fixed `.jpg` extension for every payload. -/
theorem C8_theorem :
    (∀ buf : List Nat, indexJsImageExt buf = ".jpg") ∧
    (∀ buf : List Nat, part006ImageExt buf = ".png" ↔
      (buf.get? 0 = some 0x89 ∧ buf.get? 1 = some 0x50)) ∧
    part006ImageExt pngBytes = ".png" ∧
    part006ImageExt jfifBytes = ".jpg" := by
  refine ⟨fun _ => rfl, ?_, by decide, by decide⟩
  intro buf
  unfold part006ImageExt
  split
  · next h => exact iff_of_true rfl h
  · next h => exact iff_of_false (by decide) h

/-- A malformed payload: no character belongs to the base64 alphabet. -/
def junkB64 : String := "$$$$$$$$"

lemma mergeHandler_junk (s : SysState) (id now : Nat) (caption : Option String) :
    mergeHandler s id now (some junkB64) (some junkB64) caption = (.fileTooSmall, s) := by
  unfold mergeHandler
  rw [show jsFalsy (some junkB64) = false from rfl]
  dsimp only [bufferFromBase64, Option.getD_some]
  rw [show nodeBase64Decode junkB64 = ([] : List Nat) from by decide]
  rfl

/-- C10: decoding a string payload with `Buffer.from(_, "base64")` never
throws — characters outside the base64 alphabet are skipped — so the 400
"Invalid base64" branch is unreachable for string inputs, and a
malformed-encoding submission is rejected (if at all) only by the
1000-byte floor on the decoded buffers. -/
theorem C10_theorem :
    (∀ (s : SysState) (id now : Nat) (image audio caption : Option String),
      (mergeHandler s id now image audio caption).1 ≠ .invalidBase64) ∧
    nodeBase64Decode junkB64 = [] ∧
    (∀ s : SysState, mergeHandler s 0 0 (some junkB64) (some junkB64) none =
      (.fileTooSmall, s)) ∧
    nodeBase64Decode "Q!U J*D&" = nodeBase64Decode "QUJD" := by
  refine ⟨?_, by decide, fun s => mergeHandler_junk s 0 0 none, by decide⟩
  intro s id now image audio caption
  unfold mergeHandler
  by_cases h1 : (jsFalsy image || jsFalsy audio) = true
  · rw [if_pos h1]
    simp
  · rw [if_neg h1]
    dsimp only [bufferFromBase64]
    split
    · simp
    · simp

/-- Witness for C10 at a concrete well-formed submission. -/
theorem C10_witness :
    (mergeHandler ⟨[], []⟩ 1 2 (some "QUJD") (some "QUJD") none).1 ≠ .invalidBase64 :=
  C10_theorem.1 ⟨[], []⟩ 1 2 (some "QUJD") (some "QUJD") none

/-- C1 (amended): for every image+audio submission passing validation the
handler registers the `processing` record under the freshly minted id and
only then produces the response, which carries that id as `video_id` and as
the poll-URL id; on the post-response state the status poll returns the
`processing` record, never 404.  (The claim as stated additionally asserts
that no later poll can 404 while the job is in flight; that part fails,
because a Janitor capacity sweep can evict an in-flight job — see the
counterexample.) -/
theorem C1_theorem (s : SysState) (id now : Nat) (image audio : String)
    (caption : Option String)
    (himg : jsFalsy (some image) = false) (haud : jsFalsy (some audio) = false)
    (hi : 1000 ≤ (nodeBase64Decode image).length)
    (ha : 1000 ≤ (nodeBase64Decode audio).length) :
    ∃ s' : SysState,
      mergeHandler s id now (some image) (some audio) caption = (.accepted id id, s') ∧
      mapGet s'.jobs id = some (processingJob now
        (roundDiv (nodeBase64Decode image).length 1024)
        (roundDiv (nodeBase64Decode audio).length 1024) caption) ∧
      (processingJob now (roundDiv (nodeBase64Decode image).length 1024)
        (roundDiv (nodeBase64Decode audio).length 1024) caption).status = .processing ∧
      statusHandler s' id = .ok id (processingJob now
        (roundDiv (nodeBase64Decode image).length 1024)
        (roundDiv (nodeBase64Decode audio).length 1024) caption) := by
  have hcond : (decide ((nodeBase64Decode image).length < 1000) ||
      decide ((nodeBase64Decode audio).length < 1000)) = false := by
    simp only [Bool.or_eq_false_iff, decide_eq_false_iff_not, Nat.not_lt]
    exact ⟨hi, ha⟩
  have hmerge : mergeHandler s id now (some image) (some audio) caption =
      (.accepted id id,
       { jobs := mapSet s.jobs id (processingJob now
           (roundDiv (nodeBase64Decode image).length 1024)
           (roundDiv (nodeBase64Decode audio).length 1024) caption)
         fs := fsWrite (fsWrite s.fs (.img id) (nodeBase64Decode image).length)
                 (.aud id) (nodeBase64Decode audio).length }) := by
    unfold mergeHandler
    rw [himg, haud]
    rw [if_neg (by simp)]
    dsimp only [bufferFromBase64, Option.getD_some]
    rw [if_neg (by rw [hcond]; simp)]
  refine ⟨_, hmerge, mapGet_set_self _ _ _, rfl, ?_⟩
  unfold statusHandler
  rw [mapGet_set_self]

/-- Witness for C1 at a concrete valid submission. -/
theorem C1_witness :
    ∃ s' : SysState,
      mergeHandler ⟨[], []⟩ 5 7 (some aStr) (some aStr) none = (.accepted 5 5, s') ∧
      mapGet s'.jobs 5 = some (processingJob 7
        (roundDiv (nodeBase64Decode aStr).length 1024)
        (roundDiv (nodeBase64Decode aStr).length 1024) none) ∧
      (processingJob 7 (roundDiv (nodeBase64Decode aStr).length 1024)
        (roundDiv (nodeBase64Decode aStr).length 1024) none).status = .processing ∧
      statusHandler s' 5 = .ok 5 (processingJob 7
        (roundDiv (nodeBase64Decode aStr).length 1024)
        (roundDiv (nodeBase64Decode aStr).length 1024) none) :=
  C1_theorem ⟨[], []⟩ 5 7 aStr aStr none jsFalsy_aStr jsFalsy_aStr
    (by rw [decode_aStr, List.length_replicate]; omega)
    (by rw [decode_aStr, List.length_replicate]; omega)

set_option maxRecDepth 8192 in
/-- Counterexample for C1 as stated: after 101 accepted submissions, job 0
is still in flight (its render task is pending and its record reads
`processing`), yet one Janitor tick capacity-evicts it and the status poll
returns 404. -/
theorem C1_counterexample :
    Reachable (wAfter 101) ∧
    0 ∈ (wAfter 101).pending ∧
    (mapGet (wAfter 101).st.jobs 0).map Job.status = some JStatus.processing ∧
    statusHandler (tickStep (wAfter 101) 0).st 0 = .notFound := by
  refine ⟨reachable_wAfter 101, ?_, ?_, ?_⟩
  · rw [wAfter_pending]
    decide
  · rw [wAfter_jobs]
    decide
  · show statusHandler (cleanupOldJobs 0 (wAfter 101).st) 0 = .notFound
    have hnone : mapGet (evictJobs (sweepJobs 0
        ((List.range 101).map (fun i => (i, pJob))))) 0 = none := by decide
    unfold statusHandler
    rw [cleanup_jobs, wAfter_jobs, hnone]

/-- C5 (amended): capacity eviction happens only inside a Janitor tick:
after `cleanupOldJobs` the registry holds at most `MAX_ACTIVE_JOBS`
entries — exactly `MAX_ACTIVE_JOBS` when the swept registry was over the
cap, i.e. exactly the excess quantity is removed — and every evicted entry
is no younger (by `createdAt`) than every surviving entry.  (The claim as
stated additionally asserts the registry size never exceeds the cap; that
part fails between ticks — see the counterexample.) -/
theorem C5_theorem (s : SysState) (now : Nat) (hnd : keysNodup s.jobs) :
    (cleanupOldJobs now s).jobs.length ≤ MAX_ACTIVE_JOBS ∧
    (MAX_ACTIVE_JOBS < (sweepJobs now s.jobs).length →
      (cleanupOldJobs now s).jobs.length = MAX_ACTIVE_JOBS) ∧
    (∀ p ∈ sweepJobs now s.jobs, p ∉ (cleanupOldJobs now s).jobs →
      ∀ q ∈ (cleanupOldJobs now s).jobs, p.2.createdAt ≤ q.2.createdAt) := by
  have hnds : keysNodup (sweepJobs now s.jobs) :=
    keysNodup_sublist (sweepJobs_sublist _ _) hnd
  refine ⟨?_, ?_, ?_⟩
  · rw [cleanup_jobs]
    by_cases h : MAX_ACTIVE_JOBS < (sweepJobs now s.jobs).length
    · exact (evictJobs_length hnds h).le
    · unfold evictJobs
      rw [if_neg h]
      omega
  · intro h
    rw [cleanup_jobs]
    exact evictJobs_length hnds h
  · rw [cleanup_jobs]
    exact evictJobs_oldest hnds

/-- Witness for C5 on a two-entry registry. -/
theorem C5_witness :
    (cleanupOldJobs 0 ⟨[(0, pJob), (1, pJob)], []⟩).jobs.length ≤ MAX_ACTIVE_JOBS :=
  (C5_theorem ⟨[(0, pJob), (1, pJob)], []⟩ 0 (by unfold keysNodup; decide)).1

set_option maxRecDepth 8192 in
/-- Counterexample for C5 as stated: between Janitor ticks nothing evicts,
so 101 accepted submissions leave the registry holding 101 entries — the
reachable registry size does exceed the cap of 100. -/
theorem C5_counterexample :
    Reachable (wAfter 101) ∧
    (wAfter 101).st.jobs.length = 101 ∧
    MAX_ACTIVE_JOBS < (wAfter 101).st.jobs.length := by
  refine ⟨reachable_wAfter 101, ?_, ?_⟩
  · rw [wAfter_jobs]
    simp
  · rw [wAfter_jobs]
    simp [MAX_ACTIVE_JOBS]

/-- C4 (amended, part that holds): when the Janitor's age sweep evicts an
expired registry entry, the entry and its artifact file are removed
together in the same tick. -/
theorem C4_theorem (s : SysState) (now id : Nat) (j : Job) (hnd : keysNodup s.jobs)
    (hget : mapGet s.jobs id = some j) (hexp : MAX_JOB_AGE < now - j.createdAt) :
    mapGet (cleanupOldJobs now s).jobs id = none ∧
    fsStat (cleanupOldJobs now s).fs (.out id) = none := by
  constructor
  · rw [cleanup_jobs, mapGet_eq_none_iff]
    intro p hp hpk
    have hp1 : p ∈ sweepJobs now s.jobs := (evictJobs_sublist _).subset hp
    have hp2 : p ∈ s.jobs := (sweepJobs_sublist now s.jobs).subset hp1
    have hpj : p.2 = j := by
      have hgetp : mapGet s.jobs p.1 = some p.2 := mem_mapGet hnd (by cases p; exact hp2)
      rw [hpk, hget] at hgetp
      cases hgetp
      rfl
    have hkeep := (List.mem_filter.1 hp1).2
    rw [hpj] at hkeep
    simp only [Bool.not_eq_true', decide_eq_false_iff_not] at hkeep
    exact hkeep hexp
  · rw [cleanup_fs]
    have hmem : (id, j) ∈ expiredJobs now s.jobs :=
      List.mem_filter.2 ⟨mapGet_eq_some_mem hget, by simp [hexp]⟩
    exact fsStat_foldl_remove_mem (expiredJobs now s.jobs) s.fs (id, j) hmem

/-- Witness for C4 on a one-hour-stale error record with its artifact. -/
theorem C4_witness :
    mapGet (cleanupOldJobs 3600001 ⟨[(0, errorJob "e" 0)], [(JPath.out 0, 5)]⟩).jobs 0
      = none ∧
    fsStat (cleanupOldJobs 3600001 ⟨[(0, errorJob "e" 0)], [(JPath.out 0, 5)]⟩).fs
      (.out 0) = none :=
  C4_theorem ⟨[(0, errorJob "e" 0)], [(JPath.out 0, 5)]⟩ 3600001 0 (errorJob "e" 0)
    (by unfold keysNodup; decide) (by decide) (by decide)

/-- The world after 101 accepted submissions in which job 0's render task
then completes successfully with a 300000-byte artifact. -/
def c4w1 : World := finishStep (wAfter 101) 0 0 5000 none (.success "") (some 300000)

/-- One Janitor tick later (registry over cap, job 0 capacity-evicted). -/
def c4w2 : World := tickStep c4w1 0

/-- A second Janitor tick long after the retention window. -/
def c4w3 : World := tickStep c4w2 7200000

/-- The record the successful render writes for job 0 in this trace. -/
def cJob : Job := completeJob 0 300000 5 "FinanceTubeAI" 0

set_option maxRecDepth 8192 in
/-- Counterexample for C4 as stated: capacity eviction removes only the
registry entry, never the artifact file.  Job 0 completes with a
300000-byte artifact, one Janitor tick capacity-evicts its entry (file
kept), and a tick issued well past the retention window still leaves the
artifact on disk with no registry entry — a dangling artifact surviving
the retention window. -/
theorem C4_counterexample :
    Reachable c4w3 ∧
    mapGet c4w3.st.jobs 0 = none ∧
    fsStat c4w3.st.fs (.out 0) = some 300000 := by
  have hj0 : mapGet (wAfter 101).st.jobs 0 = some pJob := by
    rw [wAfter_jobs]
    decide
  have hpv := processVideo_success_eq (wAfter 101).st 0 0 5000 none "" 300000
    (by omega) pJob hj0
  have h1 : c4w1.st.jobs = mapSet ((List.range 101).map (fun i => (i, pJob))) 0 cJob := by
    show (processVideo (wAfter 101).st 0 0 5000 none (.success "") (some 300000)).jobs = _
    rw [hpv, wAfter_jobs]
    rfl
  have hfs1 : c4w1.st.fs =
      fsRemove (fsRemove (fsWrite (wAfter 101).st.fs (.out 0) 300000) (.img 0)) (.aud 0) := by
    show (processVideo (wAfter 101).st 0 0 5000 none (.success "") (some 300000)).fs = _
    rw [hpv]
  have hstat1 : fsStat c4w1.st.fs (.out 0) = some 300000 := by
    rw [hfs1,
      fsStat_remove_ne _ _ _ (show JPath.out 0 ≠ JPath.aud 0 by simp),
      fsStat_remove_ne _ _ _ (show JPath.out 0 ≠ JPath.img 0 by simp),
      fsStat_write_self]
  have hexp1 : expiredJobs 0 c4w1.st.jobs = [] := by
    rw [h1]
    decide
  have h2 : c4w2.st.jobs =
      evictJobs (sweepJobs 0 (mapSet ((List.range 101).map (fun i => (i, pJob))) 0 cJob)) := by
    show (cleanupOldJobs 0 c4w1.st).jobs = _
    rw [cleanup_jobs, h1]
  have hfs2 : c4w2.st.fs = c4w1.st.fs := by
    show (cleanupOldJobs 0 c4w1.st).fs = _
    rw [cleanup_fs, hexp1]
    rfl
  have hkeys2 : ∀ p ∈ expiredJobs 7200000 c4w2.st.jobs, p.1 ≠ 0 := by
    rw [h2]
    decide
  have hr3 : Reachable c4w3 :=
    .next (.next (.next (reachable_wAfter 101)
      (Step.finish _ 0 0 5000 none _ _ (by rw [wAfter_pending]; decide)))
      (Step.tick _ 0)) (Step.tick _ 7200000)
  refine ⟨hr3, ?_, ?_⟩
  · show mapGet (cleanupOldJobs 7200000 c4w2.st).jobs 0 = none
    rw [cleanup_jobs, h2]
    decide
  · show fsStat (cleanupOldJobs 7200000 c4w2.st).fs (.out 0) = some 300000
    rw [cleanup_fs]
    have hne : ∀ p ∈ expiredJobs 7200000 c4w2.st.jobs,
        JPath.out 0 ≠ JPath.out p.1 := by
      intro p hp hc
      injection hc with h
      exact hkeys2 p hp h.symm
    rw [fsStat_foldl_remove_ne _ _ _ hne, hfs2, hstat1]
